import Mathlib

/-!
Verification development for `bdpy/dl/torch/torch.py`.

The file shallowly embeds the two components of the module:
`FeatureExtractor` / `FeatureExtractorHandle` (hook-based activation
capture) and `ImageDataset` (image loading / transform pipeline with an
optional size-bounded preload cache).

External collaborators (the torch runtime, PIL image decoding and
resampling) are modelled as explicit parameters or as small records whose
fields carry exactly the attributes the source manipulates (device
placement, autograd linkage, pixel data).  All definitions are translated
from the source file; rationals stand in for floating-point values.
-/

/-! ## Torch tensor model

A `Tensor` carries the attributes of a `torch.Tensor` that the source
reads or writes: its device string, whether it is still linked to the
autograd graph (`detach` severs this), its shape and its numeric payload.
-/

/-- Model of a `torch.Tensor`: device, autograd linkage, shape, payload. -/
structure Tensor where
  device : String
  gradLinked : Bool
  shape : List Nat
  data : List ℚ
deriving DecidableEq, Repr

/-- Model of a decoded numpy array (`np.ndarray`): shape and row-major data. -/
structure NDArray where
  shape : List Nat
  data : List ℚ
deriving DecidableEq, Repr

/-- Tensor.detach(): severs the autograd linkage, everything else kept. -/
def Tensor.detach (t : Tensor) : Tensor :=
  { t with gradLinked := false }

/-- Tensor.clone(): an independently-owned copy with identical attributes. -/
def Tensor.clone (t : Tensor) : Tensor :=
  t

/-- Tensor.cpu(): moves the tensor to host memory. -/
def Tensor.cpu (t : Tensor) : Tensor :=
  { t with device := "cpu" }

/-- Tensor.numpy(): converts a (host, detached) tensor to a plain array. -/
def Tensor.numpy (t : Tensor) : NDArray :=
  { shape := t.shape, data := t.data }

/-- The argument of `FeatureExtractor.run`: either a raw numpy array or an
already-built tensor (`_tensor_t = Union[np.ndarray, torch.Tensor]`). -/
inductive XInput where
  | arr : NDArray → XInput
  | tens : Tensor → XInput

/-- A value of the returned feature dictionary: a tensor when
`detach=False`, a plain numpy array when `detach=True`. -/
inductive TVal where
  | tensor : Tensor → TVal
  | array : NDArray → TVal
deriving DecidableEq, Repr

/-! ## FeatureExtractorHandle

`FeatureExtractorHandle.__call__(self, module, module_in, module_out)`
appends `module_out.detach().clone()` to `self.outputs`; `clear()` resets
the buffer to `[]`.
-/

/-- One hook firing: `self.outputs.append(module_out.detach().clone())`. -/
def hookCall (outputs : List Tensor) (module_out : Tensor) : List Tensor :=
  outputs ++ [(Tensor.detach module_out).clone]

/-- The buffer produced by a forward pass that fires the hook once per
element of `fired`, starting from a cleared buffer. -/
def runHooks (fired : List Tensor) : List Tensor :=
  fired.foldl hookCall []

/-! ## Python dict model

The source builds the feature map with a dict comprehension.  A Python
dict is an insertion-ordered association list in which inserting an
existing key overwrites its value in place.
-/

/-- Insert into a Python dict: overwrite in place if the key exists,
append otherwise. -/
def dictInsert (d : List (String × TVal)) (k : String) (v : TVal) :
    List (String × TVal) :=
  if d.any (fun p => p.1 == k) then
    d.map (fun p => if p.1 == k then (k, v) else p)
  else
    d ++ [(k, v)]

/-- A dict comprehension over a list of key/value pairs. -/
def dictOf (l : List (String × TVal)) : List (String × TVal) :=
  l.foldl (fun d p => dictInsert d p.1 p.2) []

/-- Pair each requested layer with `outputs[i]`
(`{layer: outputs[i] for i, layer in enumerate(layers)}`); `none` models
the `IndexError` raised when the buffer is shorter than the layer list. -/
def zipOutputs : List String → List Tensor → Option (List (String × Tensor))
  | [], _ => some []
  | _ :: _, [] => none
  | l :: ls, t :: ts => (zipOutputs ls ts).map (fun r => (l, t) :: r)

/-- Post-processing applied to one captured tensor by `run`:
`v.cpu().detach().numpy()` when `detach=True`, identity otherwise. -/
def finalizeVal (detach : Bool) (t : Tensor) : TVal :=
  if detach then TVal.array ((t.cpu.detach).numpy) else TVal.tensor t

/-- The detach-branch conversion applied to a dict value. -/
def finalizeDetach : TVal → TVal
  | TVal.tensor t => TVal.array ((t.cpu.detach).numpy)
  | TVal.array a => TVal.array a

/-! ## FeatureExtractor

`__init__` stores the encoder, the ordered layer names, the detach flag
and the device, moves the encoder to the device and registers one shared
`FeatureExtractorHandle` on every resolved layer.  The net observable
effect of the registration — which module outputs reach the hook during
one forward pass, and in which order — is modelled by the `fires`
function: `fires xt` is the list of module outputs passed to the hook by
`self._encoder.forward(xt)`, in firing order.
-/

/-- State of a constructed `FeatureExtractor`. -/
structure FeatureExtractor where
  fires : Tensor → List Tensor
  layers : List String
  detach : Bool
  device : String
  extractorOutputs : List Tensor

/-- The tensor handed to `forward`: a non-tensor input gets a leading
batch axis and is materialised on the configured device
(`torch.tensor(x[np.newaxis], device=self.__device)`); a tensor input is
used as is. -/
def toXt (fe : FeatureExtractor) (x : XInput) : Tensor :=
  match x with
  | XInput.arr a =>
      { device := fe.device, gradLinked := false,
        shape := 1 :: a.shape, data := a.data }
  | XInput.tens t => t

/-- `FeatureExtractor.run`: clear the buffer, run one forward pass, zip
the requested layer names positionally against the buffered outputs,
convert to numpy arrays when `detach=True`.  `none` models the
`IndexError` raised when fewer hook firings occurred than layers were
requested. -/
def FeatureExtractor.run (fe : FeatureExtractor) (x : XInput) :
    Option (List (String × TVal) × FeatureExtractor) :=
  let xt := toXt fe x
  let buffered := runHooks (fe.fires xt)
  match zipOutputs fe.layers buffered with
  | none => none
  | some pairs =>
    let features := dictOf (pairs.map (fun p => (p.1, TVal.tensor p.2)))
    let features :=
      if fe.detach then features.map (fun p => (p.1, finalizeDetach p.2))
      else features
    some (features, { fe with extractorOutputs := buffered })

/-! ## Basic lemmas about the capture mechanism -/

theorem runHooks_eq_map (fired : List Tensor) :
    runHooks fired = fired.map (fun t => (Tensor.detach t).clone) := by
  have h : ∀ (l : List Tensor) (acc : List Tensor),
      l.foldl hookCall acc = acc ++ l.map (fun t => (Tensor.detach t).clone) := by
    intro l
    induction l with
    | nil => intro acc; simp
    | cons a l ih =>
        intro acc
        simp [hookCall, ih]
  simpa [runHooks] using h fired []

theorem zipOutputs_eq_zip :
    ∀ (ls : List String) (ts : List Tensor), ls.length ≤ ts.length →
      zipOutputs ls ts = some (ls.zip ts)
  | [], _, _ => by simp [zipOutputs]
  | l :: ls, [], h => by simp at h
  | l :: ls, t :: ts, h => by
      have h' : ls.length ≤ ts.length := Nat.le_of_succ_le_succ h
      simp [zipOutputs, zipOutputs_eq_zip ls ts h']

theorem dictInsert_fresh (d : List (String × TVal)) (k : String) (v : TVal)
    (h : ∀ p ∈ d, p.1 ≠ k) : dictInsert d k v = d ++ [(k, v)] := by
  have hany : d.any (fun p => p.1 == k) = false := by
    simp only [List.any_eq_false]
    intro p hp
    simpa using h p hp
  simp [dictInsert, hany]

theorem dictOf_nodup (l : List (String × TVal))
    (h : (l.map Prod.fst).Nodup) : dictOf l = l := by
  have main : ∀ (l : List (String × TVal)) (acc : List (String × TVal)),
      ((acc ++ l).map Prod.fst).Nodup →
      l.foldl (fun d p => dictInsert d p.1 p.2) acc = acc ++ l := by
    intro l
    induction l with
    | nil => intro acc _; simp
    | cons a l ih =>
        intro acc hnd
        have hfresh : ∀ p ∈ acc, p.1 ≠ a.1 := by
          intro p hp
          have hmem : p.1 ∈ acc.map Prod.fst := List.mem_map_of_mem _ hp
          have hmem' : a.1 ∈ (a :: l).map Prod.fst := by simp
          intro hEq
          have hdisj := (List.nodup_append.mp (by
            simpa [List.map_append] using hnd)).2.2
          exact hdisj hmem (hEq.symm ▸ hmem')
        have hstep : dictInsert acc a.1 a.2 = acc ++ [a] := by
          simpa using dictInsert_fresh acc a.1 a.2 hfresh
        have hnd' : (((acc ++ [a]) ++ l).map Prod.fst).Nodup := by
          simpa [List.append_assoc] using hnd
        calc (a :: l).foldl (fun d p => dictInsert d p.1 p.2) acc
            = l.foldl (fun d p => dictInsert d p.1 p.2) (acc ++ [a]) := by
              simp [hstep]
          _ = (acc ++ [a]) ++ l := ih (acc ++ [a]) hnd'
          _ = acc ++ a :: l := by simp
  simpa [dictOf] using main l [] (by simpa using h)

theorem mem_dictInsert (d : List (String × TVal)) (k : String) (v : TVal)
    (p : String × TVal) (hp : p ∈ dictInsert d k v) :
    p ∈ d ∨ p = (k, v) := by
  by_cases hany : d.any (fun q => q.1 == k)
  · simp only [dictInsert, hany, if_true] at hp
    rcases List.mem_map.mp hp with ⟨q, hq, hEq⟩
    by_cases hqk : (q.1 == k) = true
    · right; rw [if_pos hqk] at hEq; exact hEq.symm
    · left; rw [if_neg hqk] at hEq; exact hEq ▸ hq
  · simp only [dictInsert, hany, if_false] at hp
    rcases List.mem_append.mp hp with h | h
    · exact Or.inl h
    · exact Or.inr (by simpa using h)

theorem mem_dictOf (l : List (String × TVal)) (p : String × TVal)
    (hp : p ∈ dictOf l) : p ∈ l := by
  have main : ∀ (l : List (String × TVal)) (acc : List (String × TVal)),
      p ∈ l.foldl (fun d q => dictInsert d q.1 q.2) acc → p ∈ acc ∨ p ∈ l := by
    intro l
    induction l with
    | nil => intro acc h; exact Or.inl (by simpa using h)
    | cons a l ih =>
        intro acc h
        rcases ih (dictInsert acc a.1 a.2) (by simpa using h) with h' | h'
        · rcases mem_dictInsert acc a.1 a.2 p h' with h'' | h''
          · exact Or.inl h''
          · exact Or.inr (by simp [h''])
        · exact Or.inr (List.mem_cons_of_mem _ h')
  rcases main l [] (by simpa [dictOf] using hp) with h | h
  · simp at h
  · exact h

theorem lookup_map_value {α β γ : Type} [BEq α] (l : List (α × β)) (a : α)
    (f : β → γ) :
    List.lookup a (l.map (fun p => (p.1, f p.2))) = (List.lookup a l).map f := by
  induction l with
  | nil => simp [List.lookup]
  | cons q l ih =>
      by_cases h : a == q.1
      · simp [List.lookup, h]
      · simp [List.lookup, h, ih]

theorem zipOutputs_mem :
    ∀ (ls : List String) (ts : List Tensor) (pairs : List (String × Tensor)),
      zipOutputs ls ts = some pairs → ∀ q ∈ pairs, q.2 ∈ ts
  | [], _, pairs, h, q, hq => by
      simp [zipOutputs] at h
      subst h
      simp at hq
  | _ :: _, [], pairs, h, q, hq => by
      simp [zipOutputs] at h
  | l :: ls, t :: ts, pairs, h, q, hq => by
      simp only [zipOutputs, Option.map_eq_some'] at h
      obtain ⟨r, hr, hpairs⟩ := h
      subst hpairs
      rcases List.mem_cons.mp hq with h' | h'
      · subst h'
        exact List.mem_cons_self _ _
      · exact List.mem_cons_of_mem _ (zipOutputs_mem ls ts r hr q h')

theorem lookup_zip :
    ∀ (ls : List String) (ts : List Tensor), ls.Nodup →
      ∀ (i : Nat) (l : String), ls.get? i = some l → ls.length ≤ ts.length →
        List.lookup l (ls.zip ts) = ts.get? i
  | [], _, _, i, l, hi, _ => by simp at hi
  | a :: ls, [], _, i, l, _, hlen => by simp at hlen
  | a :: ls, t :: ts, hnd, 0, l, hi, hlen => by
      simp at hi
      subst hi
      simp [List.lookup]
  | a :: ls, t :: ts, hnd, i + 1, l, hi, hlen => by
      have hi' : ls.get? i = some l := by simpa using hi
      have hne : l ≠ a := by
        intro hEq
        have hmem : l ∈ ls := List.get?_mem hi'
        rw [hEq] at hmem
        exact (List.nodup_cons.mp hnd).1 hmem
      have hbeq : (l == a) = false := by
        simpa using hne
      simp only [List.zip_cons_cons, List.lookup, hbeq]
      simpa using lookup_zip ls ts (List.nodup_cons.mp hnd).2 i l hi'
        (by simpa using Nat.le_of_succ_le_succ hlen)

/-! ## Numpy array construction helpers

Row-major 3-d arrays are built exactly as numpy lays them out: the flat
data list enumerates the first axis outermost.  `mk2`/`mk3` are the
embedding of this nested construction.
-/

/-- Row-major flattening of a 2-d table of values. -/
def mk2 (n1 n2 : Nat) (g : Nat → Nat → ℚ) : List ℚ :=
  (List.range n1).flatMap (fun i1 => (List.range n2).map (fun i2 => g i1 i2))

/-- Row-major flattening of a 3-d table of values. -/
def mk3 (n0 n1 n2 : Nat) (g : Nat → Nat → Nat → ℚ) : List ℚ :=
  (List.range n0).flatMap (fun i0 => mk2 n1 n2 (g i0))

/-- Element access `a[i, j, k]` of a 3-d row-major array (out-of-range
access defaults to 0; the source lets numpy raise instead). -/
def NDArray.at3 (a : NDArray) (i j k : Nat) : ℚ :=
  (a.data.get? ((i * a.shape.getD 1 0 + j) * a.shape.getD 2 0 + k)).getD 0

/-! ## PIL image model

`PIL.Image.open` yields an image with a colour `mode` and per-channel
pixel values in [0, 255].  The pixel-level behaviour of the PIL
operations the source delegates (CMYK→RGB conversion, alpha compositing
onto white, resampling) is external to the repository and enters the
embedding as the fields of a `PILRuntime`.
-/

/-- Colour modes distinguished by `__load_image`. -/
inductive PILMode where
  | RGB : PILMode
  | RGBA : PILMode
  | CMYK : PILMode
  | L : PILMode
deriving DecidableEq, Repr

/-- A decoded PIL image: mode, size and channel data. -/
structure PILImage where
  mode : PILMode
  height : Nat
  width : Nat
  chan : Nat → Nat → Nat → ℚ

/-- Pixel-level semantics of the external PIL operations used by
`__load_image`: `convert('RGB')` on CMYK images, compositing onto a white
background through the alpha mask, and `Image.resize` interpolation
(filter code, source array, PIL `(width, height)` size, output index). -/
structure PILRuntime where
  cmykToRGB : PILImage → Nat → Nat → Nat → ℚ
  alphaComposite : PILImage → Nat → Nat → Nat → ℚ
  interp : Nat → NDArray → Nat × Nat → Nat → Nat → Nat → ℚ

/-- np.asarray over an h×w image with c channels. -/
def asarray3 (chan : Nat → Nat → Nat → ℚ) (h w c : Nat) : NDArray :=
  { shape := [h, w, c], data := mk3 h w c chan }

/-- Colour-mode normalization of `__load_image`: CMYK → RGB via
`convert('RGB')`; RGBA → composited onto an opaque white background with
the alpha channel as mask; then `np.asarray`; a 2-d (monotone) result is
stacked into three identical channels (`np.stack([data]*3, axis=2)`). -/
def normalizeModes (rt : PILRuntime) (img : PILImage) : NDArray :=
  match img.mode with
  | PILMode.CMYK => asarray3 (rt.cmykToRGB img) img.height img.width 3
  | PILMode.RGBA => asarray3 (rt.alphaComposite img) img.height img.width 3
  | PILMode.RGB => asarray3 img.chan img.height img.width 3
  | PILMode.L => asarray3 (fun i j _ => img.chan i j 0) img.height img.width 3

/-! ## PIL resampling filter codes

Pillow's numeric filter constants: NEAREST = 0, LANCZOS = 1,
BILINEAR = 2, BICUBIC = 3, BOX = 4, HAMMING = 5.
-/

def PILRes.NEAREST : Nat := 0

def PILRes.LANCZOS : Nat := 1

def PILRes.BILINEAR : Nat := 2

def PILRes.BICUBIC : Nat := 3

/-- The filter code the source passes at the resize call:
`Image.fromarray(data).resize(self.__resize, resample=2)`. -/
def loadImageResampleFilter : Nat := 2

/-- The resize step.  PIL's `Image.resize(size)` takes `size` as
`(width, height)`, so for `resize = (a, b)` the resulting array has `b`
rows and `a` columns. -/
def resizeStage (rt : PILRuntime) (resize : Option (Nat × Nat))
    (a : NDArray) : NDArray :=
  match resize with
  | none => a
  | some sz =>
      { shape := [sz.2, sz.1, 3],
        data := mk3 sz.2 sz.1 3
          (fun i j k => rt.interp loadImageResampleFilter a sz i j k) }

/-- The axis-name table `s2d = {'h': 0, 'w': 1, 'c': 2}` (the source
raises `KeyError` on other characters; the embedding totalises them
to 2, a region no claim touches). -/
def s2d (c : Char) : Nat :=
  if c = 'h' then 0 else if c = 'w' then 1 else 2

/-- np.transpose with axes `(p0, p1, p2)`: the k-th output axis is input
axis `p_k`, so `b[i0, i1, i2] = a[j]` with `j` placing `i_k` at axis
`p_k`. -/
def transpose3 (a : NDArray) (p0 p1 p2 : Nat) : NDArray :=
  { shape := [a.shape.getD p0 0, a.shape.getD p1 0, a.shape.getD p2 0],
    data := mk3 (a.shape.getD p0 0) (a.shape.getD p1 0) (a.shape.getD p2 0)
      (fun i0 i1 i2 =>
        let src := fun m => if m = p0 then i0 else if m = p1 then i1 else i2
        a.at3 (src 0) (src 1) (src 2)) }

/-- The reshape step: `data.transpose((s2d[shape[0]], s2d[shape[1]],
s2d[shape[2]]))` (string indexing past the end raises in the source; the
embedding defaults, a region no claim touches). -/
def reshapeStage (shape : String) (a : NDArray) : NDArray :=
  transpose3 a (s2d (shape.toList.getD 0 'h')) (s2d (shape.toList.getD 1 'w'))
    (s2d (shape.toList.getD 2 'c'))

/-- The scaling step: `data = (data / 255.) * self.__scale`. -/
def scaleStage (scale : ℚ) (a : NDArray) : NDArray :=
  { a with data := a.data.map (fun v => v / 255 * scale) }

/-- The centering step: `data[c] -= rgb_mean[c]` for `c = 0, 1, 2`, i.e.
the mean is subtracted from the slices at positions 0, 1 and 2 of the
FIRST axis of the (already permuted) array.  In the source this raises
when the first axis is shorter than 3; no claim touches that region. -/
def centerStage (rgb_mean : Option (List ℚ)) (a : NDArray) : NDArray :=
  match rgb_mean with
  | none => a
  | some m =>
      let bs := a.shape.getD 1 0 * a.shape.getD 2 0
      { a with data := a.data.enum.map (fun p =>
          if p.1 / bs < 3 then p.2 - m.getD (p.1 / bs) 0 else p.2) }

/-- The per-image configuration captured by `ImageDataset.__init__`. -/
structure LoadCfg where
  resize : Option (Nat × Nat)
  shape : String
  scale : ℚ
  rgb_mean : Option (List ℚ)
deriving DecidableEq

/-- `ImageDataset.__load_image(fpath)`: decode, colour-normalize,
optionally resize, permute axes, scale, optionally center.  `fs` is the
file system (path → decoded image). -/
def loadImage (rt : PILRuntime) (fs : String → PILImage) (cfg : LoadCfg)
    (fpath : String) : NDArray :=
  centerStage cfg.rgb_mean (scaleStage cfg.scale (reshapeStage cfg.shape
    (resizeStage rt cfg.resize (normalizeModes rt (fs fpath)))))

/-! ## Path helpers

`os.path.basename` / `os.path.dirname` with POSIX separators, used for
label derivation.
-/

/-- Split a character list at every '/' (the separator semantics of
`str.split('/')`, structurally recursive). -/
def splitChars : List Char → List (List Char)
  | [] => [[]]
  | c :: cs =>
      let r := splitChars cs
      if c = '/' then [] :: r
      else
        match r with
        | [] => [[c]]
        | s :: rest => (c :: s) :: rest

/-- The '/'-separated components of a POSIX path. -/
def pathParts (p : String) : List String :=
  (splitChars p.toList).map (fun cs => String.mk cs)

/-- os.path.basename: the substring after the last '/'. -/
def basename (p : String) : String :=
  (pathParts p).getLastD p

/-- os.path.dirname: everything before the last '/', with trailing
slashes stripped unless the head consists of slashes only. -/
def dirname (p : String) : String :=
  let parts := pathParts p
  if parts.length ≤ 1 then ""
  else
    let head := String.intercalate "/" parts.dropLast ++ "/"
    if head.toList.all (fun c => c = '/') then head
    else String.mk ((head.toList.reverse.dropWhile (fun c => c = '/')).reverse)

/-- The label derived for one image path in `__init__`:
`os.path.basename(os.path.dirname(imf))` when `label_dirname` is set,
else `os.path.basename(imf)`. -/
def labelFor (label_dirname : Bool) (imf : String) : String :=
  if label_dirname then basename (dirname imf) else basename imf

/-! ## ImageDataset -/

/-- Model of a `torch.Tensor` produced from a preprocessed array
(`torch.Tensor(data)` or the user transform's output). -/
structure TorchT where
  shape : List Nat
  data : List ℚ
deriving DecidableEq, Repr

/-- torch.Tensor(data): wraps the raw array with no further change. -/
def torchTensor (a : NDArray) : TorchT :=
  { shape := a.shape, data := a.data }

/-- State of a constructed `ImageDataset`: the user transform, the load
configuration, the preload cache `__data` (index → decoded array), the
path list, the label list and `n_sample`. -/
structure ImageDataset where
  transform : Option (NDArray → TorchT)
  cfg : LoadCfg
  data : List (Nat × NDArray)
  data_path : List String
  labels : List String
  n_sample : Nat

/-- Accumulator of the construction loop of `__init__`: the (local)
`preload` flag, the running byte total `preload_size`, the cache under
construction and the derived labels. -/
structure InitAcc where
  preloadFlag : Bool
  preload_size : Nat
  data : List (Nat × NDArray)
  image_labels : List String

/-- The decoded size in bytes, `data.size * data.itemsize`: the number
of elements times 8 (the arrays are float64 after `data / 255.`). -/
def nbytes (d : NDArray) : Nat :=
  d.shape.prod * 8

/-- One iteration of the construction loop over `enumerate(images)`:
derive and append the label; when the `preload` flag is still set,
decode the image, and either cache it (when it fits the byte budget) or
clear the flag for all remaining iterations (`preload = False; continue`). -/
def initStep (rt : PILRuntime) (fs : String → PILImage) (cfg : LoadCfg)
    (label_dirname : Bool) (preload_limit : ℚ) (acc : InitAcc)
    (ie : Nat × String) : InitAcc :=
  let acc := { acc with
    image_labels := acc.image_labels ++ [labelFor label_dirname ie.2] }
  if acc.preloadFlag then
    let d := loadImage rt fs cfg ie.2
    let data_size := nbytes d
    if ((acc.preload_size + data_size : Nat) : ℚ) > preload_limit * 1024 ^ 3
    then
      { acc with preloadFlag := false }
    else
      { acc with data := acc.data ++ [(ie.1, d)],
                 preload_size := acc.preload_size + data_size }
  else acc

/-- `ImageDataset.__init__`.  The default `preload_limit=np.inf` is not
translated (the claims instantiate finite budgets); otherwise the field
assignments follow the source line by line. -/
def ImageDataset.init (rt : PILRuntime) (fs : String → PILImage)
    (images : List String) (labels : Option (List String))
    (label_dirname : Bool) (resize : Option (Nat × Nat)) (shape : String)
    (transform : Option (NDArray → TorchT)) (scale : ℚ)
    (rgb_mean : Option (List ℚ)) (preload : Bool) (preload_limit : ℚ) :
    ImageDataset :=
  let cfg : LoadCfg :=
    { resize := resize, shape := shape, scale := scale, rgb_mean := rgb_mean }
  let acc := images.enum.foldl (initStep rt fs cfg label_dirname preload_limit)
    { preloadFlag := preload, preload_size := 0, data := [], image_labels := [] }
  { transform := transform
    cfg := cfg
    data := acc.data
    data_path := images
    labels := labels.getD acc.image_labels
    n_sample := images.length }

/-- `len(dataset)`. -/
def ImageDataset.len (ds : ImageDataset) : Nat :=
  ds.n_sample

/-- Application of the user transform, or `torch.Tensor(data)` when no
transform is configured. -/
def applyTransform (t : Option (NDArray → TorchT)) (d : NDArray) : TorchT :=
  match t with
  | some f => f d
  | none => torchTensor d

/-- `ImageDataset.__getitem__(idx)`: use the cached array when `idx` is
in `__data`, else run `__load_image` on `self.data_path[idx]`; apply the
transform (or wrap as a tensor); return the pair together with the
dataset state after the call (the method assigns to no field).  `none`
models the `IndexError` of an out-of-range index. -/
def ImageDataset.getitem (rt : PILRuntime) (fs : String → PILImage)
    (ds : ImageDataset) (idx : Nat) :
    Option ((TorchT × String) × ImageDataset) :=
  let dataOpt : Option NDArray :=
    match List.lookup idx ds.data with
    | some d => some d
    | none => (ds.data_path.get? idx).map (loadImage rt fs ds.cfg)
  match dataOpt, ds.labels.get? idx with
  | some d, some label => some ((applyTransform ds.transform d, label), ds)
  | _, _ => none

/-! ## Indexing lemmas for the array model -/

theorem mk2_length (n1 n2 : Nat) (g : Nat → Nat → ℚ) :
    (mk2 n1 n2 g).length = n1 * n2 := by
  induction n1 with
  | zero => simp [mk2]
  | succ n1 ih =>
      rw [mk2, List.range_succ, List.flatMap_append]
      simp only [List.flatMap_singleton]
      rw [List.length_append]
      rw [show (List.range n1).flatMap
          (fun i1 => (List.range n2).map (fun i2 => g i1 i2)) = mk2 n1 n2 g
        from rfl]
      simp [ih, Nat.succ_mul]

theorem mk2_get? (n1 n2 : Nat) (g : Nat → Nat → ℚ) (i1 i2 : Nat)
    (h1 : i1 < n1) (h2 : i2 < n2) :
    (mk2 n1 n2 g).get? (i1 * n2 + i2) = some (g i1 i2) := by
  induction n1 with
  | zero => exact absurd h1 (Nat.not_lt_zero _)
  | succ n1 ih =>
      rw [mk2, List.range_succ, List.flatMap_append]
      simp only [List.flatMap_singleton]
      rw [show (List.range n1).flatMap
          (fun i1 => (List.range n2).map (fun i2 => g i1 i2)) = mk2 n1 n2 g
        from rfl]
      rcases Nat.lt_succ_iff_lt_or_eq.mp h1 with h | h
      · have hidx : i1 * n2 + i2 < (mk2 n1 n2 g).length := by
          rw [mk2_length]
          calc i1 * n2 + i2 < i1 * n2 + n2 := Nat.add_lt_add_left h2 _
            _ = (i1 + 1) * n2 := by ring
            _ ≤ n1 * n2 := Nat.mul_le_mul_right _ h
        rw [List.get?_append hidx]
        exact ih h
      · subst h
        have hlen : (mk2 i1 n2 g).length ≤ i1 * n2 + i2 := by
          rw [mk2_length]; exact Nat.le_add_right _ _
        rw [List.get?_append_right hlen, mk2_length]
        have : i1 * n2 + i2 - i1 * n2 = i2 := by omega
        rw [this, List.get?_map, List.get?_range h2]
        rfl

theorem mk3_length (n0 n1 n2 : Nat) (g : Nat → Nat → Nat → ℚ) :
    (mk3 n0 n1 n2 g).length = n0 * (n1 * n2) := by
  induction n0 with
  | zero => simp [mk3]
  | succ n0 ih =>
      rw [mk3, List.range_succ, List.flatMap_append]
      simp only [List.flatMap_singleton]
      rw [show (List.range n0).flatMap (fun i0 => mk2 n1 n2 (g i0))
          = mk3 n0 n1 n2 g from rfl]
      rw [List.length_append, ih, mk2_length]
      ring

theorem mk3_get? (n0 n1 n2 : Nat) (g : Nat → Nat → Nat → ℚ) (i0 i1 i2 : Nat)
    (h0 : i0 < n0) (h1 : i1 < n1) (h2 : i2 < n2) :
    (mk3 n0 n1 n2 g).get? ((i0 * n1 + i1) * n2 + i2) = some (g i0 i1 i2) := by
  induction n0 with
  | zero => exact absurd h0 (Nat.not_lt_zero _)
  | succ n0 ih =>
      rw [mk3, List.range_succ, List.flatMap_append]
      simp only [List.flatMap_singleton]
      rw [show (List.range n0).flatMap (fun i0 => mk2 n1 n2 (g i0))
          = mk3 n0 n1 n2 g from rfl]
      rcases Nat.lt_succ_iff_lt_or_eq.mp h0 with h | h
      · have hidx : (i0 * n1 + i1) * n2 + i2 < (mk3 n0 n1 n2 g).length := by
          rw [mk3_length]
          calc (i0 * n1 + i1) * n2 + i2
              < (i0 * n1 + i1) * n2 + n2 := Nat.add_lt_add_left h2 _
            _ = (i0 * n1 + i1 + 1) * n2 := by ring
            _ ≤ ((i0 + 1) * n1) * n2 := by
                apply Nat.mul_le_mul_right
                calc i0 * n1 + i1 + 1 ≤ i0 * n1 + n1 := by omega
                  _ = (i0 + 1) * n1 := by ring
            _ ≤ (n0 * n1) * n2 := by
                apply Nat.mul_le_mul_right
                exact Nat.mul_le_mul_right _ h
            _ = n0 * (n1 * n2) := by ring
        rw [List.get?_append hidx]
        exact ih h
      · subst h
        have hlen : (mk3 i0 n1 n2 g).length ≤ (i0 * n1 + i1) * n2 + i2 := by
          rw [mk3_length]
          calc i0 * (n1 * n2) = (i0 * n1) * n2 := by ring
            _ ≤ (i0 * n1 + i1) * n2 := Nat.mul_le_mul_right _ (Nat.le_add_right _ _)
            _ ≤ (i0 * n1 + i1) * n2 + i2 := Nat.le_add_right _ _
        rw [List.get?_append_right hlen, mk3_length]
        have : (i0 * n1 + i1) * n2 + i2 - i0 * (n1 * n2) = i1 * n2 + i2 := by
          have h' : (i0 * n1 + i1) * n2 = i0 * (n1 * n2) + i1 * n2 := by ring
          omega
        rw [this]
        exact mk2_get? n1 n2 (g i0) i1 i2 h1 h2

theorem at3_mk (n0 n1 n2 : Nat) (g : Nat → Nat → Nat → ℚ) (i j k : Nat)
    (h0 : i < n0) (h1 : j < n1) (h2 : k < n2) :
    NDArray.at3 { shape := [n0, n1, n2], data := mk3 n0 n1 n2 g } i j k
      = g i j k := by
  show ((mk3 n0 n1 n2 g).get? ((i * n1 + j) * n2 + k)).getD 0 = g i j k
  rw [mk3_get? n0 n1 n2 g i j k h0 h1 h2]
  rfl

theorem at3_scale_mk (s : ℚ) (n0 n1 n2 : Nat) (g : Nat → Nat → Nat → ℚ)
    (i j k : Nat) (h0 : i < n0) (h1 : j < n1) (h2 : k < n2) :
    (scaleStage s { shape := [n0, n1, n2], data := mk3 n0 n1 n2 g }).at3 i j k
      = g i j k / 255 * s := by
  show (((mk3 n0 n1 n2 g).map (fun v => v / 255 * s)).get?
    ((i * n1 + j) * n2 + k)).getD 0 = g i j k / 255 * s
  rw [List.get?_map, mk3_get? n0 n1 n2 g i j k h0 h1 h2]
  rfl

theorem at3_center (a : NDArray) (m : List ℚ) (n0 n1 n2 i j k : Nat)
    (hs : a.shape = [n0, n1, n2]) (hl : a.data.length = n0 * (n1 * n2))
    (h0 : i < n0) (h1 : j < n1) (h2 : k < n2) (hi3 : i < 3) :
    (centerStage (some m) a).at3 i j k = a.at3 i j k - m.getD i 0 := by
  have hn1 : 0 < n1 := Nat.lt_of_le_of_lt (Nat.zero_le j) h1
  have hn2 : 0 < n2 := Nat.lt_of_le_of_lt (Nat.zero_le k) h2
  have hbs : 0 < n1 * n2 := Nat.mul_pos hn1 hn2
  have hd1 : a.shape.getD 1 0 = n1 := by rw [hs]; rfl
  have hd2 : a.shape.getD 2 0 = n2 := by rw [hs]; rfl
  have hidxval : (i * n1 + j) * n2 + k = (n1 * n2) * i + (j * n2 + k) := by
    ring
  have hrlt : j * n2 + k < n1 * n2 := by
    calc j * n2 + k < j * n2 + n2 := Nat.add_lt_add_left h2 _
      _ = (j + 1) * n2 := by ring
      _ ≤ n1 * n2 := Nat.mul_le_mul_right _ h1
  have hdiv : ((i * n1 + j) * n2 + k) / (n1 * n2) = i := by
    rw [hidxval, Nat.mul_add_div hbs, Nat.div_eq_of_lt hrlt, Nat.add_zero]
  have hidxlt : (i * n1 + j) * n2 + k < a.data.length := by
    rw [hl, hidxval]
    calc (n1 * n2) * i + (j * n2 + k) < (n1 * n2) * i + n1 * n2 :=
          Nat.add_lt_add_left hrlt _
      _ = (n1 * n2) * (i + 1) := by ring
      _ ≤ (n1 * n2) * n0 := Nat.mul_le_mul_left _ h0
      _ = n0 * (n1 * n2) := by ring
  have hget : a.data.get? ((i * n1 + j) * n2 + k)
      = some (a.data.get ⟨(i * n1 + j) * n2 + k, hidxlt⟩) :=
    List.get?_eq_get hidxlt
  show ((a.data.enum.map (fun p =>
      if p.1 / (a.shape.getD 1 0 * a.shape.getD 2 0) < 3 then
        p.2 - m.getD (p.1 / (a.shape.getD 1 0 * a.shape.getD 2 0)) 0
      else p.2)).get?
      ((i * a.shape.getD 1 0 + j) * a.shape.getD 2 0 + k)).getD 0
    = a.at3 i j k - m.getD i 0
  rw [hd1, hd2, List.get?_map, List.get?_enum, hget]
  show (if ((i * n1 + j) * n2 + k) / (n1 * n2) < 3 then _ else _) = _
  rw [hdiv, if_pos hi3]
  show a.data.get _ - m.getD i 0 = a.at3 i j k - m.getD i 0
  have : a.at3 i j k = a.data.get ⟨(i * n1 + j) * n2 + k, hidxlt⟩ := by
    show (a.data.get? ((i * a.shape.getD 1 0 + j) * a.shape.getD 2 0 + k)).getD 0 = _
    rw [hd1, hd2, hget]
    rfl
  rw [this]

/-! ## Stage-level reductions used by the pipeline claims -/

theorem normalizeModes_RGB (rt : PILRuntime) (img : PILImage)
    (h : img.mode = PILMode.RGB) :
    normalizeModes rt img = asarray3 img.chan img.height img.width 3 := by
  rw [normalizeModes, h]

/-- The array entering the reshape step: decoded, colour-normalized and
optionally resized. -/
def preArray (rt : PILRuntime) (fs : String → PILImage) (cfg : LoadCfg)
    (fpath : String) : NDArray :=
  resizeStage rt cfg.resize (normalizeModes rt (fs fpath))

theorem normalizeModes_form (rt : PILRuntime) (img : PILImage) :
    ∃ g, normalizeModes rt img
      = { shape := [img.height, img.width, 3],
          data := mk3 img.height img.width 3 g } := by
  cases h : img.mode with
  | RGB => exact ⟨img.chan, by rw [normalizeModes, h]; rfl⟩
  | RGBA => exact ⟨rt.alphaComposite img, by rw [normalizeModes, h]; rfl⟩
  | CMYK => exact ⟨rt.cmykToRGB img, by rw [normalizeModes, h]; rfl⟩
  | L => exact ⟨fun i j _ => img.chan i j 0, by rw [normalizeModes, h]; rfl⟩

theorem preArray_form (rt : PILRuntime) (fs : String → PILImage)
    (cfg : LoadCfg) (fpath : String) :
    ∃ (n0 n1 : Nat) (g : Nat → Nat → Nat → ℚ),
      preArray rt fs cfg fpath = { shape := [n0, n1, 3], data := mk3 n0 n1 3 g } := by
  rw [preArray]
  rcases hr : cfg.resize with _ | sz
  · obtain ⟨g, hg⟩ := normalizeModes_form rt (fs fpath)
    refine ⟨(fs fpath).height, (fs fpath).width, g, ?_⟩
    show normalizeModes rt (fs fpath) = _
    exact hg
  · exact ⟨sz.2, sz.1, _, rfl⟩

theorem loadImage_eq_stages (rt : PILRuntime) (fs : String → PILImage)
    (cfg : LoadCfg) (fpath : String) :
    loadImage rt fs cfg fpath
      = centerStage cfg.rgb_mean (scaleStage cfg.scale
          (reshapeStage cfg.shape (preArray rt fs cfg fpath))) := rfl

/-! ## Construction-loop lemmas -/

/-- Total size in bytes of the preload cache. -/
def cacheBytes (l : List (Nat × NDArray)) : Nat :=
  (l.map (fun p => nbytes p.2)).sum

theorem cacheBytes_append (l : List (Nat × NDArray)) (p : Nat × NDArray) :
    cacheBytes (l ++ [p]) = cacheBytes l + nbytes p.2 := by
  simp [cacheBytes]

/-- Invariant of the construction loop after processing the first `n`
images: the running total equals the cache's byte size and fits the
budget, and the cached indices are `0, …, k-1` where `k = n` while the
`preload` flag is still set, and `k` is frozen at the index of the image
that overflowed the budget once the flag has been cleared. -/
def CacheInv (rt : PILRuntime) (fs : String → PILImage) (cfg : LoadCfg)
    (limit : ℚ) (images : List String) (n : Nat) (acc : InitAcc) : Prop :=
  acc.preload_size = cacheBytes acc.data
  ∧ ((acc.preload_size : ℚ) ≤ limit * 1024 ^ 3)
  ∧ ∃ k, acc.data.map Prod.fst = List.range k
      ∧ (acc.preloadFlag = true → k = n)
      ∧ (acc.preloadFlag = false → k ≤ n ∧
          ((cacheBytes acc.data
            + nbytes (loadImage rt fs cfg (images.getD k "")) : Nat) : ℚ)
            > limit * 1024 ^ 3)

theorem initStep_image_labels (rt : PILRuntime) (fs : String → PILImage)
    (cfg : LoadCfg) (ld : Bool) (limit : ℚ) (acc : InitAcc)
    (p : Nat × String) :
    (initStep rt fs cfg ld limit acc p).image_labels
      = acc.image_labels ++ [labelFor ld p.2] := by
  rw [initStep]
  by_cases hf : acc.preloadFlag
  · simp only [hf, if_true]
    split <;> rfl
  · simp [hf]

theorem initStep_preserves (rt : PILRuntime) (fs : String → PILImage)
    (cfg : LoadCfg) (ld : Bool) (limit : ℚ) (images : List String)
    (n : Nat) (a : String) (ha : images.getD n "" = a) (acc : InitAcc)
    (hinv : CacheInv rt fs cfg limit images n acc) :
    CacheInv rt fs cfg limit images (n + 1)
      (initStep rt fs cfg ld limit acc (n, a)) := by
  obtain ⟨hsz, hle, k, hks, hkt, hkf⟩ := hinv
  rw [initStep]
  by_cases hf : acc.preloadFlag
  · simp only [hf, if_true]
    by_cases hov : ((acc.preload_size + nbytes (loadImage rt fs cfg (n, a).2) : Nat) : ℚ)
        > limit * 1024 ^ 3
    · rw [if_pos hov]
      refine ⟨hsz, hle, k, hks, ?_, ?_⟩
      · intro h; exact absurd h (by simp)
      · intro _
        have hk : k = n := hkt hf
        constructor
        · omega
        · rw [hk, ha, ← hsz]
          exact hov
    · rw [if_neg hov]
      have hk : k = n := hkt hf
      refine ⟨?_, ?_, k + 1, ?_, ?_, ?_⟩
      · show acc.preload_size + nbytes (loadImage rt fs cfg (n, a).2)
            = cacheBytes (acc.data ++ [(n, loadImage rt fs cfg (n, a).2)])
        rw [cacheBytes_append, hsz]
      · push_neg at hov
        simpa using hov
      · simp only [List.map_append, hks, List.map_cons, List.map_nil, hk]
        rw [List.range_succ]
      · intro _; omega
      · intro h; exact absurd h (by simp [hf])
  · have hf' : acc.preloadFlag = false := by
      simpa using hf
    simp only [hf', Bool.false_eq_true, if_false]
    refine ⟨hsz, hle, k, hks, ?_, ?_⟩
    · intro h; exact absurd h (by simp [hf'])
    · intro _
      rcases hkf hf' with ⟨h1, h2⟩
      exact ⟨Nat.le_succ_of_le h1, h2⟩

theorem init_fold_cache (rt : PILRuntime) (fs : String → PILImage)
    (cfg : LoadCfg) (ld : Bool) (limit : ℚ) (images : List String) :
    ∀ (l : List String) (n : Nat) (acc : InitAcc), images.drop n = l →
      CacheInv rt fs cfg limit images n acc →
      CacheInv rt fs cfg limit images (n + l.length)
        ((List.enumFrom n l).foldl (initStep rt fs cfg ld limit) acc) := by
  intro l
  induction l with
  | nil => intro n acc _ hinv; simpa using hinv
  | cons a l ih =>
      intro n acc hdrop hinv
      have ha : images.getD n "" = a := by
        have h0 : images.get? n = some a := by
          have := List.get?_drop images n 0
          rw [hdrop] at this
          simpa using this.symm
        rw [List.getD_eq_getElem?_getD, ← List.get?_eq_getElem?, h0]
        rfl
      have hdrop' : images.drop (n + 1) = l := by
        have : images.drop (n + 1) = (images.drop n).drop 1 := by
          rw [List.drop_drop, Nat.add_comm]
        rw [this, hdrop]
        rfl
      have hstep := initStep_preserves rt fs cfg ld limit images n a ha acc hinv
      have hres := ih (n + 1) (initStep rt fs cfg ld limit acc (n, a)) hdrop' hstep
      have hlen : n + 1 + l.length = n + (a :: l).length := by
        simp [List.length_cons]; omega
      rw [List.enumFrom, List.foldl_cons]
      rw [← hlen]
      exact hres

theorem init_fold_labels (rt : PILRuntime) (fs : String → PILImage)
    (cfg : LoadCfg) (ld : Bool) (limit : ℚ) :
    ∀ (l : List (Nat × String)) (acc : InitAcc),
      (l.foldl (initStep rt fs cfg ld limit) acc).image_labels
        = acc.image_labels ++ l.map (fun p => labelFor ld p.2) := by
  intro l
  induction l with
  | nil => intro acc; simp
  | cons p l ih =>
      intro acc
      rw [List.foldl_cons, ih, initStep_image_labels]
      simp

/-! ## Claim theorems: FeatureExtractor -/

/-- C1: for every `FeatureExtractor` over an ordered sequence of logical
layer names, `run(x)` starts from a cleared capture buffer (the result
does not depend on any stale buffer contents), executes one forward pass,
and returns a mapping whose keys are exactly the requested logical layer
names, the value for the i-th requested name being the i-th buffered hook
output (positional zip in registration order, not keyed by a concrete
resolved name), post-processed by the detach conversion. -/
theorem FeatureExtractor.run_positional_zip (fe : FeatureExtractor)
    (x : XInput) (hnd : fe.layers.Nodup)
    (hlen : fe.layers.length ≤ (fe.fires (toXt fe x)).length) :
    ∃ d fe', FeatureExtractor.run fe x = some (d, fe')
      ∧ d.map Prod.fst = fe.layers
      ∧ (∀ i l, fe.layers.get? i = some l →
          List.lookup l d
            = (((fe.fires (toXt fe x)).map
                (fun t => (Tensor.detach t).clone)).get? i).map
                  (finalizeVal fe.detach))
      ∧ (∀ stale, FeatureExtractor.run { fe with extractorOutputs := stale } x
          = FeatureExtractor.run fe x) := by
  have hbuf : runHooks (fe.fires (toXt fe x))
      = (fe.fires (toXt fe x)).map (fun t => (Tensor.detach t).clone) :=
    runHooks_eq_map _
  have hlen' : fe.layers.length
      ≤ ((fe.fires (toXt fe x)).map (fun t => (Tensor.detach t).clone)).length := by
    simpa using hlen
  have hzip : zipOutputs fe.layers
      ((fe.fires (toXt fe x)).map (fun t => (Tensor.detach t).clone))
      = some (fe.layers.zip
          ((fe.fires (toXt fe x)).map (fun t => (Tensor.detach t).clone))) :=
    zipOutputs_eq_zip _ _ hlen'
  set buf := (fe.fires (toXt fe x)).map (fun t => (Tensor.detach t).clone)
    with hbufdef
  set pairsT := (fe.layers.zip buf).map (fun p => (p.1, TVal.tensor p.2))
    with hpairsT
  have hkeysT : pairsT.map Prod.fst = fe.layers := by
    rw [hpairsT, List.map_map]
    have : (Prod.fst ∘ fun p : String × Tensor => (p.1, TVal.tensor p.2))
        = Prod.fst := by
      funext p; rfl
    rw [this]
    exact List.map_fst_zip _ _ hlen'
  have hdict : dictOf pairsT = pairsT :=
    dictOf_nodup pairsT (by rw [hkeysT]; exact hnd)
  have hlookupT : ∀ i l, fe.layers.get? i = some l →
      List.lookup l pairsT = (buf.get? i).map TVal.tensor := by
    intro i l hi
    rw [hpairsT, lookup_map_value, lookup_zip fe.layers buf hnd i l hi hlen']
  have hrun : FeatureExtractor.run fe x
      = some ((if fe.detach then
          pairsT.map (fun p => (p.1, finalizeDetach p.2)) else pairsT),
        { fe with extractorOutputs := buf }) := by
    simp only [FeatureExtractor.run, hbuf, hzip, hdict]
  refine ⟨_, _, hrun, ?_, ?_, ?_⟩
  · by_cases hdet : fe.detach
    · rw [if_pos hdet, List.map_map]
      have : (Prod.fst ∘ fun p : String × TVal => (p.1, finalizeDetach p.2))
          = Prod.fst := by
        funext p; rfl
      rw [this, hkeysT]
    · rw [if_neg hdet, hkeysT]
  · intro i l hi
    by_cases hdet : fe.detach
    · rw [if_pos hdet, lookup_map_value, hlookupT i l hi, Option.map_map]
      cases hbufi : buf.get? i <;> simp [finalizeVal, finalizeDetach, hdet]
    · have hdet' : fe.detach = false := by simpa using hdet
      rw [if_neg hdet, hlookupT i l hi]
      cases hbufi : buf.get? i <;> simp [finalizeVal, hdet']
  · intro stale
    rfl

/-- Tensors and input used by the C1 witness. -/
def w1t1 : Tensor :=
  { device := "cpu", gradLinked := false, shape := [2], data := [1, 2] }

def w1t2 : Tensor :=
  { device := "cpu", gradLinked := true, shape := [3], data := [3, 4, 5] }

def w1FE : FeatureExtractor :=
  { fires := fun _ => [w1t1, w1t2], layers := ["conv1", "fc"],
    detach := true, device := "cpu", extractorOutputs := [] }

def w1X : XInput :=
  XInput.arr { shape := [2], data := [9, 9] }

/-- Witness for C1 at a concrete two-layer extractor. -/
theorem FeatureExtractor.run_positional_zip_witness :
    (w1FE.layers.Nodup ∧
      w1FE.layers.length ≤ (w1FE.fires (toXt w1FE w1X)).length)
    ∧ (∃ d fe', FeatureExtractor.run w1FE w1X = some (d, fe')
        ∧ d.map Prod.fst = w1FE.layers
        ∧ (∀ i l, w1FE.layers.get? i = some l →
            List.lookup l d
              = (((w1FE.fires (toXt w1FE w1X)).map
                  (fun t => (Tensor.detach t).clone)).get? i).map
                    (finalizeVal w1FE.detach))
        ∧ (∀ stale,
            FeatureExtractor.run { w1FE with extractorOutputs := stale } w1X
              = FeatureExtractor.run w1FE w1X)) :=
  ⟨⟨by decide, by decide⟩,
    FeatureExtractor.run_positional_zip w1FE w1X (by decide) (by decide)⟩

/-- Encoder firing used by the C2 instances: one observed layer whose
output lives on the execution device and is linked to the autograd
graph. -/
def cexFires : Tensor → List Tensor :=
  fun _ => [{ device := "cuda:0", gradLinked := true, shape := [1], data := [5] }]

def cexFE : FeatureExtractor :=
  { fires := cexFires, layers := ["a"], detach := false,
    device := "cuda:0", extractorOutputs := [] }

def cexX : XInput :=
  XInput.tens { device := "cuda:0", gradLinked := true, shape := [1], data := [3] }

/-- The autograd linkage flag of the value stored under `layer` in the
feature map returned by `run`. -/
def gradLinkedOfRun (fe : FeatureExtractor) (x : XInput) (layer : String) :
    Option Bool :=
  match FeatureExtractor.run fe x with
  | some (d, _) =>
      match List.lookup layer d with
      | some (TVal.tensor t) => some t.gradLinked
      | some (TVal.array _) => none
      | none => none
  | none => none

/-- C2 counterexample: with `detach=False`, an extractor whose observed
layer produces a graph-linked on-device tensor still returns a value with
NO autograd linkage, because the hook stores
`module_out.detach().clone()` at capture time.  The claim asserts the
returned outputs retain their live linkage to the forward pass, i.e. the
flag below would have to be `some true`. -/
theorem run_noDetach_gradLinkage_counterexample :
    gradLinkedOfRun cexFE cexX "a" = some false := by
  rfl

/-- C2 amended: with `detach=False` every value of the returned mapping
is a tensor that remains on the device the module produced it on (no
`.cpu()` transfer is applied), but it is a detached clone made at capture
time: its autograd linkage is severed, so it is NOT suitable for
subsequent gradient computation through the forward pass. -/
theorem run_noDetach_onDevice_but_detached (fe : FeatureExtractor)
    (x : XInput) (hdet : fe.detach = false) (d : List (String × TVal))
    (fe' : FeatureExtractor)
    (hrun : FeatureExtractor.run fe x = some (d, fe')) :
    ∀ p ∈ d, ∃ src ∈ fe.fires (toXt fe x),
      p.2 = TVal.tensor { src with gradLinked := false } := by
  intro p hp
  rw [FeatureExtractor.run] at hrun
  rcases hzip : zipOutputs fe.layers (runHooks (fe.fires (toXt fe x)))
    with _ | pairs
  · rw [hzip] at hrun
    simp at hrun
  · rw [hzip] at hrun
    simp only [hdet, Bool.false_eq_true, if_false, Option.some_inj] at hrun
    have hd : d = dictOf (pairs.map (fun p => (p.1, TVal.tensor p.2))) := by
      have := congrArg Prod.fst hrun
      simpa using this.symm
    rw [hd] at hp
    have hp' := mem_dictOf _ _ hp
    rcases List.mem_map.mp hp' with ⟨q, hq, hpq⟩
    have hq2 : q.2 ∈ runHooks (fe.fires (toXt fe x)) :=
      zipOutputs_mem fe.layers _ pairs hzip q hq
    rw [runHooks_eq_map] at hq2
    rcases List.mem_map.mp hq2 with ⟨src, hsrc, hsrcq⟩
    refine ⟨src, hsrc, ?_⟩
    rw [← hpq]
    rw [← hsrcq]
    rfl

/-- Witness for the amended C2 at the concrete extractor: `run` succeeds
and its single value is the detached clone of the fired output, still on
"cuda:0". -/
theorem run_noDetach_onDevice_but_detached_witness :
    cexFE.detach = false
    ∧ ∀ p ∈ [("a", TVal.tensor
          { device := "cuda:0", gradLinked := false, shape := [1], data := [5] })],
        ∃ src ∈ cexFE.fires (toXt cexFE cexX),
          p.2 = TVal.tensor { src with gradLinked := false } :=
  ⟨rfl, run_noDetach_onDevice_but_detached cexFE cexX rfl _
    { cexFE with extractorOutputs :=
        [{ device := "cuda:0", gradLinked := false, shape := [1], data := [5] }] }
    rfl⟩

/-- C10: an input that is already a tensor is handed to the forward pass
completely unchanged — no leading batch axis is added and no transfer to
the configured device happens — while a raw numeric array gets a leading
batch axis and is materialised on the configured device. -/
theorem toXt_tensor_passthrough (fe : FeatureExtractor) (t : Tensor)
    (a : NDArray) :
    toXt fe (XInput.tens t) = t
    ∧ toXt fe (XInput.arr a)
      = { device := fe.device, gradLinked := false,
          shape := 1 :: a.shape, data := a.data } :=
  ⟨rfl, rfl⟩

/-! ## Access lemmas for ImageDataset -/

theorem getElem?_eq_some_getD {α : Type} (l : List α) (n : Nat) (d : α)
    (h : n < l.length) : l[n]? = some (l.getD n d) := by
  rw [List.getD_eq_getElem?_getD, List.getElem?_eq_getElem h]
  rfl

theorem ImageDataset.getitem_isSome (rt : PILRuntime)
    (fs : String → PILImage) (ds : ImageDataset) (idx : Nat)
    (hp : idx < ds.data_path.length) (hl : idx < ds.labels.length) :
    (ImageDataset.getitem rt fs ds idx).isSome := by
  set lbl := ds.labels.getD idx "" with hlbl
  set pth := ds.data_path.getD idx "" with hpth
  have hlab : ds.labels[idx]? = some lbl := getElem?_eq_some_getD _ _ _ hl
  have hpath : ds.data_path[idx]? = some pth := getElem?_eq_some_getD _ _ _ hp
  rw [ImageDataset.getitem]
  rcases hlk : List.lookup idx ds.data with _ | d
  · simp [hlk, hpath, hlab]
  · simp [hlk, hlab]

theorem ImageDataset.getitem_uncached (rt : PILRuntime)
    (fs : String → PILImage) (ds : ImageDataset) (idx : Nat)
    (hlk : List.lookup idx ds.data = none)
    (hp : idx < ds.data_path.length) (hl : idx < ds.labels.length) :
    ImageDataset.getitem rt fs ds idx
      = some ((applyTransform ds.transform
          (loadImage rt fs ds.cfg (ds.data_path.getD idx "")),
          ds.labels.getD idx ""), ds) := by
  set lbl := ds.labels.getD idx "" with hlbl
  set pth := ds.data_path.getD idx "" with hpth
  have hlab : ds.labels[idx]? = some lbl := getElem?_eq_some_getD _ _ _ hl
  have hpath : ds.data_path[idx]? = some pth := getElem?_eq_some_getD _ _ _ hp
  rw [ImageDataset.getitem]
  simp [hlk, hpath, hlab]

theorem ImageDataset.getitem_cached (rt : PILRuntime)
    (fs : String → PILImage) (ds : ImageDataset) (idx : Nat) (d : NDArray)
    (hlk : List.lookup idx ds.data = some d) (hl : idx < ds.labels.length) :
    ImageDataset.getitem rt fs ds idx
      = some ((applyTransform ds.transform d, ds.labels.getD idx ""), ds) := by
  set lbl := ds.labels.getD idx "" with hlbl
  have hlab : ds.labels[idx]? = some lbl := getElem?_eq_some_getD _ _ _ hl
  rw [ImageDataset.getitem]
  simp [hlk, hlab]

/-! ## Claim theorems: image pipeline and dataset -/

/-- Trivial PIL runtime used by concrete instances. -/
def rt0 : PILRuntime :=
  { cmykToRGB := fun _ _ _ _ => 0,
    alphaComposite := fun _ _ _ _ => 0,
    interp := fun _ _ _ _ _ _ => 0 }

/-- An 8×8 RGB image with constant pixel value 17. -/
def img8 : PILImage :=
  { mode := PILMode.RGB, height := 8, width := 8, chan := fun _ _ _ => 17 }

/-- C3: the resize call does NOT use bicubic interpolation.  The source
passes `resample=2`, which is PIL's BILINEAR filter, although the code's
own comment (`# bicubic`) and the spec claim bicubic (PIL code 3).
Moreover PIL's `resize` takes the size as `(width, height)`, so a
configured `resize=(2, 4)` produces a 4×2 pixel array, not the claimed
(height, width) = (2, 4) one. -/
theorem resize_uses_bilinear_not_bicubic :
    loadImageResampleFilter = PILRes.BILINEAR
    ∧ loadImageResampleFilter ≠ PILRes.BICUBIC
    ∧ (resizeStage rt0 (some (2, 4)) (normalizeModes rt0 img8)).shape
        = [4, 2, 3] :=
  ⟨rfl, by decide, rfl⟩

/-- C4: constructing with `preload=True` and a non-negative budget of `L`
GiB, the cache's byte total never exceeds `L * 1024^3`; the cached
indices are a prefix `0, …, k-1` of the input list, and either everything
was cached (`k = images.length`) or image `k` is the first one whose
decoded size would push the running total over the budget, after which
preloading was no longer attempted; and every valid index remains
accessible through `__getitem__` (on-demand load fallback). -/
theorem ImageDataset.preload_prefix_budget (rt : PILRuntime)
    (fs : String → PILImage) (images : List String)
    (labels : Option (List String)) (ld : Bool) (resize : Option (Nat × Nat))
    (shape : String) (transform : Option (NDArray → TorchT)) (scale : ℚ)
    (rgb_mean : Option (List ℚ)) (L : ℚ) (ds : ImageDataset)
    (hL : 0 ≤ L)
    (hlab : ∀ ls, labels = some ls → ls.length = images.length)
    (hds : ds = ImageDataset.init rt fs images labels ld resize shape
      transform scale rgb_mean true L) :
    ((cacheBytes ds.data : ℚ) ≤ L * 1024 ^ 3)
    ∧ (∃ k, ds.data.map Prod.fst = List.range k ∧ k ≤ images.length
        ∧ (k = images.length ∨
            ((cacheBytes ds.data + nbytes (loadImage rt fs
              { resize := resize, shape := shape, scale := scale,
                rgb_mean := rgb_mean } (images.getD k "")) : Nat) : ℚ)
              > L * 1024 ^ 3))
    ∧ (∀ idx, idx < ds.n_sample →
        (ImageDataset.getitem rt fs ds idx).isSome) := by
  subst hds
  set cfg : LoadCfg := (⟨resize, shape, scale, rgb_mean⟩ : LoadCfg) with hcfg
  have hinv0 : CacheInv rt fs cfg L images 0
      { preloadFlag := true, preload_size := 0, data := [], image_labels := [] } := by
    refine ⟨rfl, ?_, 0, rfl, fun _ => rfl, fun h => absurd h (by simp)⟩
    show ((0 : Nat) : ℚ) ≤ L * 1024 ^ 3
    rw [Nat.cast_zero]
    exact mul_nonneg hL (by norm_num)
  have hfold := init_fold_cache rt fs cfg ld L images images 0
    { preloadFlag := true, preload_size := 0, data := [], image_labels := [] }
    (by simp) hinv0
  set accF := (List.enumFrom 0 images).foldl (initStep rt fs cfg ld L)
    { preloadFlag := true, preload_size := 0, data := [], image_labels := [] }
    with haccF
  obtain ⟨hsz, hle, k, hks, hkt, hkf⟩ := hfold
  have hdata : (ImageDataset.init rt fs images labels ld resize shape
      transform scale rgb_mean true L).data = accF.data := rfl
  have hn : (ImageDataset.init rt fs images labels ld resize shape
      transform scale rgb_mean true L).n_sample = images.length := rfl
  have hpathlen : (ImageDataset.init rt fs images labels ld resize shape
      transform scale rgb_mean true L).data_path = images := rfl
  have hlabels : (ImageDataset.init rt fs images labels ld resize shape
      transform scale rgb_mean true L).labels
      = labels.getD accF.image_labels := rfl
  have hlablen : (ImageDataset.init rt fs images labels ld resize shape
      transform scale rgb_mean true L).labels.length = images.length := by
    rw [hlabels]
    rcases labels with _ | ls
    · show accF.image_labels.length = images.length
      rw [haccF, init_fold_labels]
      simp
    · show ls.length = images.length
      exact hlab ls rfl
  refine ⟨?_, ⟨k, ?_, ?_, ?_⟩, ?_⟩
  · rw [hdata, ← hsz]
    exact hle
  · rw [hdata]
    exact hks
  · rcases hfl : accF.preloadFlag with _ | _
    · have := (hkf hfl).1
      omega
    · have := hkt hfl
      omega
  · rcases hfl : accF.preloadFlag with _ | _
    · right
      rw [hdata]
      exact (hkf hfl).2
    · left
      have := hkt hfl
      omega
  · intro idx hidx
    rw [hn] at hidx
    refine ImageDataset.getitem_isSome rt fs _ idx ?_ ?_
    · rw [hpathlen]
      exact hidx
    · rw [hlablen]
      exact hidx

/-- File system used by concrete dataset instances: every path decodes to
a 1×1 RGB image with constant pixel value 51 (24 bytes once decoded to a
1×1×3 float64 array). -/
def wfs : String → PILImage :=
  fun _ => { mode := PILMode.RGB, height := 1, width := 1,
             chan := fun _ _ _ => 51 }

/-- A byte budget of 40 bytes, expressed in GiB. -/
def w4L : ℚ := 40 / 1024 ^ 3

def w4images : List String := ["a", "b", "c"]

def w4ds : ImageDataset :=
  ImageDataset.init rt0 wfs w4images none false none "hwc" none 1 none
    true w4L

/-- Witness for C4: three 24-byte images against a 40-byte budget. -/
theorem ImageDataset.preload_prefix_budget_witness :
    (0 ≤ w4L)
    ∧ (((cacheBytes w4ds.data : ℚ) ≤ w4L * 1024 ^ 3)
      ∧ (∃ k, w4ds.data.map Prod.fst = List.range k ∧ k ≤ w4images.length
          ∧ (k = w4images.length ∨
              ((cacheBytes w4ds.data + nbytes (loadImage rt0 wfs
                { resize := none, shape := "hwc", scale := 1,
                  rgb_mean := none } (w4images.getD k "")) : Nat) : ℚ)
                > w4L * 1024 ^ 3))
      ∧ (∀ idx, idx < w4ds.n_sample →
          (ImageDataset.getitem rt0 wfs w4ds idx).isSome)) :=
  ⟨by norm_num [w4L],
    ImageDataset.preload_prefix_budget rt0 wfs w4images none false none
      "hwc" none 1 none w4L w4ds (by norm_num [w4L])
      (fun ls h => nomatch h) rfl⟩

/-- The label list the dataset ends up with: the caller-supplied parallel
list when one was given, else the per-path derived labels (basename, or
parent-directory basename when `label_dirname` is set). -/
def expectedLabels (images : List String) (labels : Option (List String))
    (ld : Bool) : List String :=
  match labels with
  | some ls => ls
  | none => images.map (labelFor ld)

/-- C8: `len(dataset)` equals the number of input paths, the stored label
list is the caller-supplied one (when given) or the derived one, and for
every valid index the label returned by `dataset[i]` is that list's i-th
entry. -/
theorem ImageDataset.len_and_labels (rt : PILRuntime)
    (fs : String → PILImage) (images : List String)
    (labels : Option (List String)) (ld : Bool) (resize : Option (Nat × Nat))
    (shape : String) (transform : Option (NDArray → TorchT)) (scale : ℚ)
    (rgb_mean : Option (List ℚ)) (preload : Bool) (L : ℚ) (ds : ImageDataset)
    (hlab : ∀ ls, labels = some ls → ls.length = images.length)
    (hds : ds = ImageDataset.init rt fs images labels ld resize shape
      transform scale rgb_mean preload L) :
    ds.len = images.length
    ∧ ds.labels = expectedLabels images labels ld
    ∧ (∀ i, i < images.length →
        (ImageDataset.getitem rt fs ds i).map (fun r => r.1.2)
          = some ((expectedLabels images labels ld).getD i "")) := by
  subst hds
  have hlabels : (ImageDataset.init rt fs images labels ld resize shape
      transform scale rgb_mean preload L).labels
      = expectedLabels images labels ld := by
    rcases labels with _ | ls
    · show (images.enum.foldl (initStep rt fs
        (⟨resize, shape, scale, rgb_mean⟩ : LoadCfg) ld L)
          { preloadFlag := preload, preload_size := 0, data := [],
            image_labels := [] }).image_labels
        = expectedLabels images none ld
      rw [init_fold_labels]
      show List.map (fun p => labelFor ld p.2) images.enum
        = images.map (labelFor ld)
      rw [show (fun p : Nat × String => labelFor ld p.2)
          = labelFor ld ∘ Prod.snd from rfl]
      rw [← List.map_map, List.enum_map_snd]
    · rfl
  have hlablen : (ImageDataset.init rt fs images labels ld resize shape
      transform scale rgb_mean preload L).labels.length = images.length := by
    rw [hlabels]
    rcases labels with _ | ls
    · simp [expectedLabels]
    · exact hlab ls rfl
  refine ⟨rfl, hlabels, ?_⟩
  intro i hi
  have hp : i < (ImageDataset.init rt fs images labels ld resize shape
      transform scale rgb_mean preload L).data_path.length := hi
  have hl : i < (ImageDataset.init rt fs images labels ld resize shape
      transform scale rgb_mean preload L).labels.length := by
    rw [hlablen]; exact hi
  rcases hlk : List.lookup i (ImageDataset.init rt fs images labels ld resize
      shape transform scale rgb_mean preload L).data with _ | d
  · rw [ImageDataset.getitem_uncached rt fs _ i hlk hp hl]
    rw [Option.map_some']
    rw [hlabels]
  · rw [ImageDataset.getitem_cached rt fs _ i d hlk hl]
    rw [Option.map_some']
    rw [hlabels]

/-- Paths used by the C8 witness: labels derived from the parent
directory name. -/
def w8images : List String := ["data/cls1/a.png", "data/cls2/b.png"]

def w8ds : ImageDataset :=
  ImageDataset.init rt0 wfs w8images none true none "hwc" none 1 none
    false 0

/-- Witness for C8 with `label_dirname=True` and derived labels. -/
theorem ImageDataset.len_and_labels_witness :
    (w8ds.len = w8images.length
      ∧ w8ds.labels = expectedLabels w8images none true
      ∧ (∀ i, i < w8images.length →
          (ImageDataset.getitem rt0 wfs w8ds i).map (fun r => r.1.2)
            = some ((expectedLabels w8images none true).getD i "")))
    ∧ expectedLabels w8images none true = ["cls1", "cls2"] :=
  ⟨ImageDataset.len_and_labels rt0 wfs w8images none true none "hwc" none
      1 none false 0 w8ds (fun ls h => nomatch h) rfl,
    by decide⟩

/-- C9: an index access never changes the dataset state — the state
returned by `__getitem__` is the state it was called on (the preload
cache, paths, labels and length are all unchanged) — and a non-preloaded
entry is produced by running the load pipeline on the entry's path at
this very access, not from any cache. -/
theorem ImageDataset.getitem_frame (rt : PILRuntime)
    (fs : String → PILImage) (ds : ImageDataset) (idx : Nat)
    (r : TorchT × String) (ds' : ImageDataset)
    (h : ImageDataset.getitem rt fs ds idx = some (r, ds')) :
    ds' = ds
    ∧ (List.lookup idx ds.data = none →
        r.1 = applyTransform ds.transform
          (loadImage rt fs ds.cfg (ds.data_path.getD idx ""))) := by
  rw [ImageDataset.getitem] at h
  rcases hlk : List.lookup idx ds.data with _ | d
  · rw [hlk] at h
    rcases hp : ds.data_path.get? idx with _ | pth
    · rw [hp] at h
      simp at h
    · rw [hp] at h
      rcases hl : ds.labels.get? idx with _ | lbl
      · rw [hl] at h
        simp at h
      · rw [hl] at h
        simp only [Option.map_some', Option.some_inj] at h
        have hds' : ds' = ds := (congrArg Prod.snd h).symm
        have hr : r = (applyTransform ds.transform
            (loadImage rt fs ds.cfg pth), lbl) := (congrArg Prod.fst h).symm
        have hpth : ds.data_path.getD idx "" = pth := by
          rw [List.getD_eq_getElem?_getD, ← List.get?_eq_getElem?, hp]
          rfl
        refine ⟨hds', fun _ => ?_⟩
        rw [hr, hpth]
  · rw [hlk] at h
    rcases hl : ds.labels.get? idx with _ | lbl
    · rw [hl] at h
      simp at h
    · rw [hl] at h
      simp only [Option.some_inj] at h
      refine ⟨(congrArg Prod.snd h).symm, fun hnone => ?_⟩
      exact absurd hnone (by simp)

def w9cfg : LoadCfg :=
  { resize := none, shape := "hwc", scale := 1, rgb_mean := none }

def w9ds : ImageDataset :=
  { transform := none, cfg := w9cfg, data := [], data_path := ["a"],
    labels := ["a"], n_sample := 1 }

def w9r : TorchT × String :=
  (torchTensor (loadImage rt0 wfs w9cfg "a"), "a")

/-- Witness for C9 at a one-entry dataset with an empty preload cache. -/
theorem ImageDataset.getitem_frame_witness :
    ImageDataset.getitem rt0 wfs w9ds 0 = some (w9r, w9ds)
    ∧ (w9ds = w9ds
      ∧ (List.lookup 0 w9ds.data = none →
          w9r.1 = applyTransform w9ds.transform
            (loadImage rt0 wfs w9ds.cfg (w9ds.data_path.getD 0 "")))) :=
  ⟨rfl, ImageDataset.getitem_frame rt0 wfs w9ds 0 w9r w9ds rfl⟩

/-- C7: reading a non-preloaded entry is deterministic and its data
component is a pure function of the path's decoded content and of
(resize, shape, scale, rgb_mean) plus the transform: two datasets that
agree on those (and look the entry up at the same path, both uncached)
return bit-identical data, whatever their caches, labels or other entries
hold; in particular two successive reads of the same entry coincide. -/
theorem ImageDataset.getitem_pure (rt : PILRuntime) (fs : String → PILImage)
    (ds1 ds2 : ImageDataset) (i1 i2 : Nat) (p : String)
    (hcfg : ds1.cfg = ds2.cfg) (ht : ds1.transform = ds2.transform)
    (hk1 : List.lookup i1 ds1.data = none)
    (hk2 : List.lookup i2 ds2.data = none)
    (hq1 : i1 < ds1.data_path.length) (hq2 : i2 < ds2.data_path.length)
    (hp1 : ds1.data_path.getD i1 "" = p) (hp2 : ds2.data_path.getD i2 "" = p)
    (hl1 : i1 < ds1.labels.length) (hl2 : i2 < ds2.labels.length) :
    (ImageDataset.getitem rt fs ds1 i1).map (fun r => r.1.1)
      = some (applyTransform ds1.transform (loadImage rt fs ds1.cfg p))
    ∧ (ImageDataset.getitem rt fs ds1 i1).map (fun r => r.1.1)
      = (ImageDataset.getitem rt fs ds2 i2).map (fun r => r.1.1) := by
  rw [ImageDataset.getitem_uncached rt fs ds1 i1 hk1 hq1 hl1,
    ImageDataset.getitem_uncached rt fs ds2 i2 hk2 hq2 hl2]
  rw [hp1, hp2, hcfg, ht]
  exact ⟨rfl, rfl⟩

def w7ds2 : ImageDataset :=
  { transform := none, cfg := w9cfg, data := [], data_path := ["b", "a"],
    labels := ["x", "y"], n_sample := 2 }

/-- Witness for C7: the same path "a" read through two differently laid
out datasets with equal configuration. -/
theorem ImageDataset.getitem_pure_witness :
    (w9ds.cfg = w7ds2.cfg ∧ w9ds.transform = w7ds2.transform
      ∧ List.lookup 0 w9ds.data = none ∧ List.lookup 1 w7ds2.data = none
      ∧ w9ds.data_path.getD 0 "" = "a" ∧ w7ds2.data_path.getD 1 "" = "a")
    ∧ ((ImageDataset.getitem rt0 wfs w9ds 0).map (fun r => r.1.1)
        = some (applyTransform w9ds.transform (loadImage rt0 wfs w9ds.cfg "a"))
      ∧ (ImageDataset.getitem rt0 wfs w9ds 0).map (fun r => r.1.1)
        = (ImageDataset.getitem rt0 wfs w7ds2 1).map (fun r => r.1.1)) :=
  ⟨⟨rfl, rfl, rfl, rfl, rfl, rfl⟩,
    ImageDataset.getitem_pure rt0 wfs w9ds w7ds2 0 1 "a" rfl rfl rfl rfl
      (by decide) (by decide) rfl rfl (by decide) (by decide)⟩

/-- C5: with `resize=None`, `scale=1`, `rgb_mean=None`, `shape='hwc'`, an
already-RGB image comes out as exactly the decoded pixel array divided by
255, with the axes left in source (h, w, c) order. -/
theorem loadImage_identity_pipeline (rt : PILRuntime)
    (fs : String → PILImage) (p : String)
    (hmode : (fs p).mode = PILMode.RGB) :
    (loadImage rt fs (⟨none, "hwc", 1, none⟩ : LoadCfg) p).shape
      = [(fs p).height, (fs p).width, 3]
    ∧ ∀ i j k, i < (fs p).height → j < (fs p).width → k < 3 →
        (loadImage rt fs (⟨none, "hwc", 1, none⟩ : LoadCfg) p).at3 i j k
          = (fs p).chan i j k / 255 := by
  have hload : loadImage rt fs (⟨none, "hwc", 1, none⟩ : LoadCfg) p
      = scaleStage 1 (⟨[(fs p).height, (fs p).width, 3],
          mk3 (fs p).height (fs p).width 3
            (fun i0 i1 i2 => NDArray.at3
              (⟨[(fs p).height, (fs p).width, 3],
                mk3 (fs p).height (fs p).width 3 (fs p).chan⟩ : NDArray)
              i0 i1 i2)⟩ : NDArray) := by
    rw [loadImage, normalizeModes_RGB rt (fs p) hmode]
    rfl
  refine ⟨?_, ?_⟩
  · rw [hload]
    rfl
  · intro i j k hi hj hk
    rw [hload, at3_scale_mk 1 _ _ _ _ i j k hi hj hk,
      at3_mk _ _ _ _ i j k hi hj hk, mul_one]

def w5img : PILImage := wfs "a"

/-- Witness for C5 at the constant 1×1 RGB image (51 / 255 = 1/5). -/
theorem loadImage_identity_pipeline_witness :
    (wfs "a").mode = PILMode.RGB
    ∧ ((loadImage rt0 wfs (⟨none, "hwc", 1, none⟩ : LoadCfg) "a").shape
        = [(wfs "a").height, (wfs "a").width, 3]
      ∧ ∀ i j k, i < (wfs "a").height → j < (wfs "a").width → k < 3 →
          (loadImage rt0 wfs (⟨none, "hwc", 1, none⟩ : LoadCfg) "a").at3 i j k
            = (wfs "a").chan i j k / 255) :=
  ⟨rfl, loadImage_identity_pipeline rt0 wfs "a" rfl⟩

/-- C6: with `rgb_mean=[m0,m1,m2]` and a shape string whose first
character is 'c' (the valid such shapes being "chw" and "cwh"), the slice
at position `c` of the first axis of the loaded array equals the scaled
channel-`c` data minus the c-th mean, the subtraction happening after
scaling.  `preArray` is the decoded (and possibly resized) array whose
last axis indexes the RGB channels. -/
theorem loadImage_centering_channel_first (rt : PILRuntime)
    (fs : String → PILImage) (cfg : LoadCfg) (p : String) (m0 m1 m2 : ℚ)
    (hm : cfg.rgb_mean = some [m0, m1, m2]) :
    (cfg.shape = "chw" → ∀ c i1 i2, c < 3 →
        i1 < (preArray rt fs cfg p).shape.getD 0 0 →
        i2 < (preArray rt fs cfg p).shape.getD 1 0 →
        (loadImage rt fs cfg p).at3 c i1 i2
          = (preArray rt fs cfg p).at3 i1 i2 c / 255 * cfg.scale
            - [m0, m1, m2].getD c 0)
    ∧ (cfg.shape = "cwh" → ∀ c i1 i2, c < 3 →
        i1 < (preArray rt fs cfg p).shape.getD 1 0 →
        i2 < (preArray rt fs cfg p).shape.getD 0 0 →
        (loadImage rt fs cfg p).at3 c i1 i2
          = (preArray rt fs cfg p).at3 i2 i1 c / 255 * cfg.scale
            - [m0, m1, m2].getD c 0) := by
  obtain ⟨n0, n1, g, hpre⟩ := preArray_form rt fs cfg p
  constructor
  · intro hsh c i1 i2 hc h1 h2
    rw [hpre] at h1 h2
    have h1' : i1 < n0 := h1
    have h2' : i2 < n1 := h2
    have htr : reshapeStage "chw" (⟨[n0, n1, 3], mk3 n0 n1 3 g⟩ : NDArray)
        = ⟨[3, n0, n1], mk3 3 n0 n1 (fun c i j =>
            NDArray.at3 (⟨[n0, n1, 3], mk3 n0 n1 3 g⟩ : NDArray) i j c)⟩ := rfl
    have hlen : (scaleStage cfg.scale (⟨[3, n0, n1], mk3 3 n0 n1 (fun c i j =>
        NDArray.at3 (⟨[n0, n1, 3], mk3 n0 n1 3 g⟩ : NDArray) i j c)⟩ :
          NDArray)).data.length = 3 * (n0 * n1) := by
      simp only [scaleStage, List.length_map]
      exact mk3_length _ _ _ _
    rw [loadImage_eq_stages, hm, hsh, hpre, htr]
    rw [at3_center _ [m0, m1, m2] 3 n0 n1 c i1 i2 rfl hlen hc h1' h2' hc]
    rw [at3_scale_mk cfg.scale 3 n0 n1 _ c i1 i2 hc h1' h2']
  · intro hsh c i1 i2 hc h1 h2
    rw [hpre] at h1 h2
    have h1' : i1 < n1 := h1
    have h2' : i2 < n0 := h2
    have htr : reshapeStage "cwh" (⟨[n0, n1, 3], mk3 n0 n1 3 g⟩ : NDArray)
        = ⟨[3, n1, n0], mk3 3 n1 n0 (fun c i j =>
            NDArray.at3 (⟨[n0, n1, 3], mk3 n0 n1 3 g⟩ : NDArray) j i c)⟩ := rfl
    have hlen : (scaleStage cfg.scale (⟨[3, n1, n0], mk3 3 n1 n0 (fun c i j =>
        NDArray.at3 (⟨[n0, n1, 3], mk3 n0 n1 3 g⟩ : NDArray) j i c)⟩ :
          NDArray)).data.length = 3 * (n1 * n0) := by
      simp only [scaleStage, List.length_map]
      exact mk3_length _ _ _ _
    rw [loadImage_eq_stages, hm, hsh, hpre, htr]
    rw [at3_center _ [m0, m1, m2] 3 n1 n0 c i1 i2 rfl hlen hc h1' h2' hc]
    rw [at3_scale_mk cfg.scale 3 n1 n0 _ c i1 i2 hc h1' h2']

def w6cfg : LoadCfg :=
  { resize := none, shape := "chw", scale := 1,
    rgb_mean := some [1/2, 1/4, 1/8] }

/-- Witness for C6 at the constant 1×1 RGB image with means
[1/2, 1/4, 1/8] and shape "chw". -/
theorem loadImage_centering_channel_first_witness :
    w6cfg.rgb_mean = some [1/2, 1/4, 1/8]
    ∧ ((w6cfg.shape = "chw" → ∀ c i1 i2, c < 3 →
          i1 < (preArray rt0 wfs w6cfg "a").shape.getD 0 0 →
          i2 < (preArray rt0 wfs w6cfg "a").shape.getD 1 0 →
          (loadImage rt0 wfs w6cfg "a").at3 c i1 i2
            = (preArray rt0 wfs w6cfg "a").at3 i1 i2 c / 255 * w6cfg.scale
              - [1/2, 1/4, 1/8].getD c 0)
      ∧ (w6cfg.shape = "cwh" → ∀ c i1 i2, c < 3 →
          i1 < (preArray rt0 wfs w6cfg "a").shape.getD 1 0 →
          i2 < (preArray rt0 wfs w6cfg "a").shape.getD 0 0 →
          (loadImage rt0 wfs w6cfg "a").at3 c i1 i2
            = (preArray rt0 wfs w6cfg "a").at3 i2 i1 c / 255 * w6cfg.scale
              - [1/2, 1/4, 1/8].getD c 0)) :=
  ⟨rfl, loadImage_centering_channel_first rt0 wfs w6cfg "a"
    (1/2) (1/4) (1/8) rfl⟩
